import Mathlib

/-!
Verification of the mygit implementation (cmd/mygit/git.go) against its
natural-language specification.  Bytes are modelled as natural numbers
below 256, byte strings as `List Nat`.  External libraries used by the
source (zlib, SHA-1) are modelled as parameters: zlib as an arbitrary
pair of functions assumed inverse on the bytes actually compressed (the
documented library contract), SHA-1 as an arbitrary function, since no
claim here depends on the digest's value.
-/

/-- Byte values of the characters of an ASCII string. -/
def ascii (s : String) : List Nat := s.data.map Char.toNat

/-- Error outcomes surfaced by the Go code: returned `error` values, and
`panicked` for Go runtime panics (out-of-range slicing, `make` with a
negative size). -/
inductive PErr where
  | eof
  | badNum
  | panicked
  | checksumMismatch
  | invalidDeltified
  | overflow
  | notFound
deriving DecidableEq

deriving instance DecidableEq for Except

/-- `Cut(data, delim)` from git.go: split at the first occurrence of the
delimiter; when the delimiter is absent Go returns `(data, nil)`. -/
def cut (data : List Nat) (delim : Nat) : List Nat × List Nat :=
  match data with
  | [] => ([], [])
  | b :: rest =>
    if b = delim then ([], rest)
    else
      let r := cut rest delim
      (b :: r.1, r.2)

/-- The non-cutting branch of `Cut`: Go returns `(data, nil)` when the
delimiter never occurs, which `cut` reproduces. -/
theorem cut_of_not_mem (delim : Nat) :
    ∀ data : List Nat, delim ∉ data → cut data delim = (data, []) := by
  intro data h
  induction data with
  | nil => rfl
  | cons b rest ih =>
    simp only [List.mem_cons, not_or] at h
    simp [cut, Ne.symm h.1, ih h.2]

/-- Splitting a bufio `ReadString(delim)` style read: the bytes strictly
before the first occurrence of `delim` and the bytes after it, or `none`
when the delimiter never occurs (bufio returns the read error then). -/
def splitAtByte (delim : Nat) : List Nat → Option (List Nat × List Nat)
  | [] => none
  | b :: rest =>
    if b = delim then some ([], rest)
    else
      match splitAtByte delim rest with
      | none => none
      | some (a, c) => some (b :: a, c)

theorem splitAtByte_eq_none (delim : Nat) :
    ∀ l : List Nat, delim ∉ l → splitAtByte delim l = none := by
  intro l h
  induction l with
  | nil => rfl
  | cons b rest ih =>
    simp only [List.mem_cons, not_or] at h
    simp [splitAtByte, Ne.symm h.1, ih h.2]

theorem splitAtByte_append (delim : Nat) :
    ∀ a rest : List Nat, delim ∉ a →
      splitAtByte delim (a ++ delim :: rest) = some (a, rest) := by
  intro a rest h
  induction a with
  | nil => simp [splitAtByte]
  | cons b bs ih =>
    simp only [List.mem_cons, not_or] at h
    simp [splitAtByte, Ne.symm h.1, ih h.2]

/-- Decimal digit value, as used by `strconv.ParseInt(s, 10, 64)`. -/
def decDigit (c : Nat) : Option Nat :=
  if 48 ≤ c ∧ c ≤ 57 then some (c - 48) else none

/-- Hexadecimal digit value, as used by `strconv.ParseInt(s, 16, 64)`
(both lower and upper case accepted by strconv). -/
def hexDigit (c : Nat) : Option Nat :=
  if 48 ≤ c ∧ c ≤ 57 then some (c - 48)
  else if 97 ≤ c ∧ c ≤ 102 then some (c - 87)
  else if 65 ≤ c ∧ c ≤ 70 then some (c - 55)
  else none

/-- Accumulate digits left to right in base `b`; fails on the first byte
that is not a digit (strconv's syntax error). -/
def parseGo (dv : Nat → Option Nat) (b : Nat) : List Nat → Nat → Option Nat
  | [], acc => some acc
  | c :: cs, acc =>
    match dv c with
    | none => none
    | some d => parseGo dv b cs (acc * b + d)

/-- Digit run of `strconv.ParseInt`: at least one digit required. -/
def parseIntCore (dv : Nat → Option Nat) (b : Nat) : List Nat → Option Nat
  | [] => none
  | c :: cs =>
    match dv c with
    | none => none
    | some d => parseGo dv b cs d

/-- `strconv.ParseInt(s, base, 64)`: optional sign, non-empty digit run,
64-bit signed range check (positive ≤ 2^63 - 1, negative magnitude
≤ 2^63). -/
def parseInt64 (dv : Nat → Option Nat) (b : Nat) (s : List Nat) : Option Int :=
  match s with
  | [] => none
  | c :: cs =>
    if c = 43 then
      match parseIntCore dv b cs with
      | none => none
      | some v => if v ≤ 2 ^ 63 - 1 then some (Int.ofNat v) else none
    else if c = 45 then
      match parseIntCore dv b cs with
      | none => none
      | some v => if v ≤ 2 ^ 63 then some (-(Int.ofNat v)) else none
    else
      match parseIntCore dv b s with
      | none => none
      | some v => if v ≤ 2 ^ 63 - 1 then some (Int.ofNat v) else none

/-- `strconv.Itoa(n)` for a non-negative count: most-significant digit
first, and the single digit `0` for zero. -/
def decRepr (n : Nat) : List Nat :=
  if n = 0 then [48] else (Nat.digits 10 n).reverse.map (· + 48)

/-- `fmt %d` of a signed 64-bit value. -/
def intDecBytes (i : Int) : List Nat :=
  if i < 0 then 45 :: decRepr i.natAbs else decRepr i.toNat

theorem decRepr_digits (n : Nat) : ∀ c ∈ decRepr n, 48 ≤ c ∧ c ≤ 57 := by
  intro c hc
  unfold decRepr at hc
  split at hc
  · simp only [List.mem_singleton] at hc; omega
  · simp only [List.mem_map, List.mem_reverse] at hc
    obtain ⟨d, hd, rfl⟩ := hc
    have := Nat.digits_lt_base (by norm_num) hd
    omega

theorem decRepr_no_space (n : Nat) : 32 ∉ decRepr n := by
  intro h
  have := decRepr_digits n 32 h
  omega

theorem decRepr_no_nul (n : Nat) : 0 ∉ decRepr n := by
  intro h
  have := decRepr_digits n 0 h
  omega

theorem parseGo_digits (ds : List Nat) (hds : ∀ d ∈ ds, d < 10) :
    ∀ acc, parseGo decDigit 10 (ds.map (· + 48)) acc =
      some (ds.foldl (fun a d => a * 10 + d) acc) := by
  induction ds with
  | nil => intro acc; rfl
  | cons d rest ih =>
    intro acc
    have hd : d < 10 := hds d (by simp)
    have : decDigit (d + 48) = some d := by
      simp only [decDigit, if_pos (by omega : 48 ≤ d + 48 ∧ d + 48 ≤ 57)]
      congr 1
    simp only [List.map_cons, parseGo, this, List.foldl_cons]
    exact ih (fun x hx => hds x (by simp [hx])) _

theorem foldl_digits_eq_ofDigits (L : List Nat) :
    L.reverse.foldl (fun a d => a * 10 + d) 0 = Nat.ofDigits 10 L := by
  rw [List.foldl_reverse]
  induction L with
  | nil => simp [Nat.ofDigits]
  | cons d rest ih =>
    simp only [List.foldr_cons, ih, Nat.ofDigits_cons]
    ring

theorem parseIntCore_decRepr (n : Nat) :
    parseIntCore decDigit 10 (decRepr n) = some n := by
  by_cases h : n = 0
  · subst h; rfl
  · unfold decRepr
    rw [if_neg h]
    have hne : Nat.digits 10 n ≠ [] := Nat.digits_ne_nil_iff_ne_zero.mpr h
    obtain ⟨d, ds, hds⟩ : ∃ d ds, (Nat.digits 10 n).reverse = d :: ds := by
      rcases hrev : (Nat.digits 10 n).reverse with _ | ⟨d, ds⟩
      · exact absurd (by simpa using congrArg List.reverse hrev) hne
      · exact ⟨d, ds, rfl⟩
    have hlt : ∀ x ∈ (Nat.digits 10 n).reverse, x < 10 := by
      intro x hx
      exact Nat.digits_lt_base (by norm_num) (List.mem_reverse.mp hx)
    have hd : d < 10 := hlt d (by simp [hds])
    have hdig : decDigit (d + 48) = some d := by
      simp only [decDigit, if_pos (by omega : 48 ≤ d + 48 ∧ d + 48 ≤ 57)]
      congr 1
    rw [hds]
    simp only [List.map_cons, parseIntCore, hdig]
    rw [parseGo_digits ds (fun x hx => hlt x (by simp [hds, hx]))]
    have : (d :: ds).foldl (fun a x => a * 10 + x) 0 = n := by
      rw [← hds, foldl_digits_eq_ofDigits, Nat.ofDigits_digits]
    simpa [List.foldl_cons] using this

theorem parseInt64_decRepr (n : Nat) (hn : n ≤ 2 ^ 63 - 1) :
    parseInt64 decDigit 10 (decRepr n) = some (Int.ofNat n) := by
  have hd : ∀ c ∈ decRepr n, 48 ≤ c ∧ c ≤ 57 := decRepr_digits n
  obtain ⟨c, cs, hcs⟩ : ∃ c cs, decRepr n = c :: cs := by
    rcases h : decRepr n with _ | ⟨c, cs⟩
    · exfalso
      unfold decRepr at h
      split at h
      · simp at h
      · have := congrArg List.length h
        simp only [List.length_map, List.length_reverse, List.length_nil] at this
        exact absurd (List.length_eq_zero.mp this)
          (Nat.digits_ne_nil_iff_ne_zero.mpr (by assumption))
    · exact ⟨c, cs, rfl⟩
  have hc := hd c (by simp [hcs])
  have h43 : c ≠ 43 := by omega
  have h45 : c ≠ 45 := by omega
  have := parseIntCore_decRepr n
  rw [hcs] at this ⊢
  simp only [parseInt64, if_neg h43, if_neg h45, this, if_pos hn]

/-- `wrapContent(contents, objectType)` from git.go: the envelope
`<type> <decimal-size>\0<payload>` (Sprintf `%s %d` then a NUL, then the
payload is copied in). -/
def wrapContent (contents objectType : List Nat) : List Nat :=
  objectType ++ [32] ++ decRepr contents.length ++ [0] ++ contents

/-- `NewGitObjectReader` followed by `ReadContents` from git.go, applied
to the inflated file bytes: `ReadString(' ')` (error if no space ever
occurs), `ReadString(0)` (error if no NUL follows), `strconv.ParseInt`
of the size field, then `io.ReadFull` of exactly `ContentSize` bytes
(error when fewer remain; surplus bytes are never looked at).  A
negative parsed size would make `make([]byte, size)` panic. -/
def parseLoose (data : List Nat) : Except PErr (List Nat × List Nat) :=
  match splitAtByte 32 data with
  | none => .error .eof
  | some (objectType, r1) =>
    match splitAtByte 0 r1 with
    | none => .error .eof
    | some (sizeStr, r2) =>
      match parseInt64 decDigit 10 sizeStr with
      | none => .error .badNum
      | some n =>
        if n < 0 then .error .panicked
        else if r2.length < n.toNat then .error .eof
        else .ok (objectType, r2.take n.toNat)

/-- Association-list view of the loose-object directory: SHA rendered by
the (parameterised) hash function, mapped to the stored file bytes. -/
def lookupA (st : List (List Nat × List Nat)) (k : List Nat) : Option (List Nat) :=
  match st with
  | [] => none
  | (k2, v) :: rest => if k2 = k then some v else lookupA rest k

/-- `writeGitObject` from git.go: hash the wrapped object, store its
zlib-compressed bytes under the hash, return the hash. -/
def writeGitObject (sha1hex comp : List Nat → List Nat)
    (st : List (List Nat × List Nat)) (object : List Nat) :
    List (List Nat × List Nat) × List Nat :=
  ((sha1hex object, comp object) :: st, sha1hex object)

/-- `NewGitObjectReader` path entry: open the object file (not-found
when absent), inflate, parse the envelope. -/
def readGitObject (decomp : List Nat → List Nat)
    (st : List (List Nat × List Nat)) (sha : List Nat) :
    Except PErr (List Nat × List Nat) :=
  match lookupA st sha with
  | none => .error .notFound
  | some fileBytes => parseLoose (decomp fileBytes)

/-- `CatFile`'s payload extraction: everything after the first NUL of
the inflated bytes; no validation of type or size is performed. -/
def catFileContent (dataBytes : List Nat) : List Nat := (cut dataBytes 0).2

/-- The four object kinds of the envelope format. -/
def gitKinds : List (List Nat) := [ascii "commit", ascii "tree", ascii "blob", ascii "tag"]

theorem parseLoose_wrapContent (t P : List Nat) (ht : 32 ∉ t)
    (hP : P.length ≤ 2 ^ 63 - 1) :
    parseLoose (wrapContent P t) = .ok (t, P) := by
  have h1 : wrapContent P t = t ++ 32 :: (decRepr P.length ++ 0 :: P) := by
    simp [wrapContent]
  rw [h1]
  simp only [parseLoose, splitAtByte_append 32 t _ ht,
    splitAtByte_append 0 _ P (decRepr_no_nul P.length),
    parseInt64_decRepr P.length hP]
  have h2 : ¬ (Int.ofNat P.length < 0) := by simp
  simp [h2]

/-- C2: for every object kind K among commit, tree, blob, tag and every
payload P, reading back the object just written returns exactly (K, P):
the write wraps P in the envelope, compresses and stores it under the
hash address, and the read inflates and parses back the same kind and
payload (for any hash function, and any compressor/inflater pair that
round-trips the envelope, the zlib contract). -/
theorem c2_read_write_roundtrip
    (sha1hex comp decomp : List Nat → List Nat)
    (st : List (List Nat × List Nat)) (kind P : List Nat)
    (hkind : kind ∈ gitKinds)
    (hlen : P.length ≤ 2 ^ 63 - 1)
    (hzlib : decomp (comp (wrapContent P kind)) = wrapContent P kind) :
    readGitObject decomp (writeGitObject sha1hex comp st (wrapContent P kind)).1
      (writeGitObject sha1hex comp st (wrapContent P kind)).2 = .ok (kind, P) := by
  have ht : 32 ∉ kind := by
    simp only [gitKinds, List.mem_cons, List.not_mem_nil, or_false] at hkind
    rcases hkind with h | h | h | h <;> subst h <;> decide
  simp only [writeGitObject, readGitObject, lookupA, eq_self_iff_true, if_true, hzlib]
  exact parseLoose_wrapContent kind P ht hlen

/-- Witness for C2 at kind `blob`, payload "hi", identity compressor and
a constant hash function. -/
theorem c2_read_write_roundtrip_witness :
    readGitObject id (writeGitObject (fun _ => [0]) id [] (wrapContent [104, 105] (ascii "blob"))).1
      (writeGitObject (fun _ => [0]) id [] (wrapContent [104, 105] (ascii "blob"))).2
      = .ok (ascii "blob", [104, 105]) :=
  c2_read_write_roundtrip (fun _ => [0]) id id [] (ascii "blob") [104, 105]
    (by decide) (by norm_num) rfl

/-- C5 counterexample: the inflated envelope "blob 2\0abc" declares size
2 but carries a 3-byte payload, so by the claim the read must fail with
a corrupt error; instead the reader succeeds with the first 2 bytes, and
CatFile returns all 3 bytes, also without error. -/
theorem c5_counterexample :
    parseLoose (ascii "blob 2" ++ 0 :: ascii "abc") = .ok (ascii "blob", ascii "ab")
      ∧ catFileContent (ascii "blob 2" ++ 0 :: ascii "abc") = ascii "abc" := by
  constructor <;> decide

/-- C5 (amended): the read fails with not-found when the object file is
missing; it fails when the inflated stream contains no space at all, or
no NUL after the first space, or a size field that does not parse as a
64-bit decimal integer; it fails when the declared size exceeds the
remaining payload; and when the declared size is at most the payload
length it succeeds, returning the first declared-size bytes — a declared
size smaller than the payload is not rejected. -/
theorem c5_read_error_behaviour :
    (∀ (decomp : List Nat → List Nat) st sha, lookupA st sha = none →
        readGitObject decomp st sha = .error .notFound)
    ∧ (∀ data : List Nat, 32 ∉ data → parseLoose data = .error .eof)
    ∧ (∀ t rest : List Nat, 32 ∉ t → 0 ∉ rest →
        parseLoose (t ++ 32 :: rest) = .error .eof)
    ∧ (∀ t d P : List Nat, 32 ∉ t → 0 ∉ d → parseInt64 decDigit 10 d = none →
        parseLoose (t ++ 32 :: (d ++ 0 :: P)) = .error .badNum)
    ∧ (∀ (t d P : List Nat) (n : Int), 32 ∉ t → 0 ∉ d →
        parseInt64 decDigit 10 d = some n → 0 ≤ n → P.length < n.toNat →
        parseLoose (t ++ 32 :: (d ++ 0 :: P)) = .error .eof)
    ∧ (∀ (t d P : List Nat) (n : Int), 32 ∉ t → 0 ∉ d →
        parseInt64 decDigit 10 d = some n → 0 ≤ n → n.toNat ≤ P.length →
        parseLoose (t ++ 32 :: (d ++ 0 :: P)) = .ok (t, P.take n.toNat)) := by
  refine ⟨?_, ?_, ?_, ?_, ?_, ?_⟩
  · intro decomp st sha h
    simp [readGitObject, h]
  · intro data h
    simp [parseLoose, splitAtByte_eq_none 32 data h]
  · intro t rest h32 h0
    simp [parseLoose, splitAtByte_append 32 t rest h32, splitAtByte_eq_none 0 rest h0]
  · intro t d P h32 h0 hparse
    simp [parseLoose, splitAtByte_append 32 t _ h32, splitAtByte_append 0 d P h0, hparse]
  · intro t d P n h32 h0 hparse hn hlt
    simp only [parseLoose, splitAtByte_append 32 t _ h32, splitAtByte_append 0 d P h0, hparse]
    rw [if_neg (by omega), if_pos hlt]
  · intro t d P n h32 h0 hparse hn hle
    simp only [parseLoose, splitAtByte_append 32 t _ h32, splitAtByte_append 0 d P h0, hparse]
    rw [if_neg (by omega), if_neg (by omega)]

/-- Witness for the amended C5, exercising each conjunct on a concrete
input: missing object, space-free stream, NUL-free tail, non-numeric
size, size 5 over a 1-byte payload, and size 1 over a 2-byte payload. -/
theorem c5_read_error_behaviour_witness :
    readGitObject id [] [1] = .error .notFound
    ∧ parseLoose [1, 2] = .error .eof
    ∧ parseLoose (ascii "blob" ++ 32 :: [97]) = .error .eof
    ∧ parseLoose (ascii "blob" ++ 32 :: ([65] ++ 0 :: [])) = .error .badNum
    ∧ parseLoose (ascii "blob" ++ 32 :: ([53] ++ 0 :: [97])) = .error .eof
    ∧ parseLoose (ascii "blob" ++ 32 :: ([49] ++ 0 :: [97, 98])) = .ok (ascii "blob", [97]) :=
  ⟨c5_read_error_behaviour.1 id [] [1] rfl,
   c5_read_error_behaviour.2.1 [1, 2] (by decide),
   c5_read_error_behaviour.2.2.1 (ascii "blob") [97] (by decide) (by decide),
   c5_read_error_behaviour.2.2.2.1 (ascii "blob") [65] [] (by decide) (by decide) (by decide),
   c5_read_error_behaviour.2.2.2.2.1 (ascii "blob") [53] [97] 5 (by decide) (by decide)
     (by decide) (by decide) (by decide),
   c5_read_error_behaviour.2.2.2.2.2 (ascii "blob") [49] [97, 98] 1 (by decide) (by decide)
     (by decide) (by decide) (by decide)⟩

/-- Does `pat` occur at the head of `l`? -/
def leadsWith : List Nat → List Nat → Bool
  | [], _ => true
  | _ :: _, [] => false
  | a :: ps, b :: l => a == b && leadsWith ps l

/-- Does `pat` occur contiguously anywhere inside `l`? -/
def containsSeq (pat : List Nat) : List Nat → Bool
  | [] => pat.isEmpty
  | b :: rest => leadsWith pat (b :: rest) || containsSeq pat rest

/-- `GitCommit.Serialize`'s Sprintf body from git.go:
`"tree %s\nparent %s\nauthor %s %s %d %s00\ncommitter %s %s %d %s00\n\n%s\n"`
over tree, parent, author, email, unix seconds, zone name, message.  The
parent line is formatted unconditionally. -/
def commitPayload (tr pr au em : List Nat) (secs : Int) (zone msg : List Nat) : List Nat :=
  ascii "tree " ++ tr ++ ascii "\nparent " ++ pr ++ ascii "\nauthor " ++ au ++ [32] ++ em
    ++ [32] ++ intDecBytes secs ++ [32] ++ zone ++ ascii "00\ncommitter " ++ au ++ [32] ++ em
    ++ [32] ++ intDecBytes secs ++ [32] ++ zone ++ ascii "00\n\n" ++ msg ++ [10]

/-- The rest of `GitCommit.Serialize`: the payload wrapped in the
`commit <size>\0` envelope. -/
def commitSerialize (tr pr au em : List Nat) (secs : Int) (zone msg : List Nat) : List Nat :=
  ascii "commit " ++ decRepr (commitPayload tr pr au em secs zone msg).length ++ [0]
    ++ commitPayload tr pr au em secs zone msg

/-- C6: evaluating the commit encoder at an empty parent SHA shows the
produced payload still contains a parent line — the bytes
`"\nparent \nauthor "` occur between the tree line and the author line —
contradicting the claim that the payload goes directly from the tree
line to the author line. -/
theorem c6_empty_parent_line_emitted :
    containsSeq (ascii "\nparent \nauthor ")
      (commitPayload (ascii "4b825dc642cb6eb9a060e54bf8d69288fbee4904") []
        (ascii "Manh Tu") (ascii "xxlaguna93@gmail.com") 0 (ascii "UTC")
        (ascii "init")) = true := by decide

/-- `fetchPackfile`'s response handling from git.go: skip a fixed 8
bytes (`result.Bytes()[8:]`, comment: skip like "0031ACK\n") and return
the rest; slicing panics when the response is shorter than 8 bytes. -/
def fetchPackfileTail (response : List Nat) : Option (List Nat) :=
  if response.length < 8 then none else some (response.drop 8)

/-- Modelled from the spec: consume exactly one well-formed
acknowledgement packet-line (4 hex digits giving the total frame length,
at least 4) and return all remaining bytes. -/
def specAckConsume (response : List Nat) : Option (List Nat) :=
  match parseInt64 hexDigit 16 (response.take 4) with
  | none => none
  | some L => if L < 4 then none else some (response.drop L.toNat)

/-- C8: on a response starting with a well-formed 16-byte ACK
packet-line ("0010ACK 12345678") followed by pack data, the code's fixed
8-byte skip leaves 8 bytes of the acknowledgement glued onto the front
of the returned packfile, where the claim requires the whole packet-line
to be consumed; the fixed skip is only correct for an 8-byte frame such
as "0008NAK\n". -/
theorem c8_fixed_skip_diverges :
    fetchPackfileTail (ascii "0010ACK 12345678PACK") = some (ascii "12345678PACK")
    ∧ specAckConsume (ascii "0010ACK 12345678PACK") = some (ascii "PACK")
    ∧ fetchPackfileTail (ascii "0008NAK\nPACK") = some (ascii "PACK") := by
  refine ⟨?_, ?_, ?_⟩ <;> decide

/-- The header branch of `readPacketLine` from git.go, after the 4
header bytes have been read (`hdr` is the 4-byte buffer, zero-padded
when the stream had fewer bytes): parse the length as hex, return the
empty payload on a flush packet, panic on a length in 1..3 (negative
`make`), otherwise read `length - 4` bytes with `bytes.Reader.Read`,
which returns the zero-filled buffer plus `io.EOF` when the reader is
already exhausted and a partially-filled buffer with no error
otherwise. -/
def plHdr (hdr rest : List Nat) : List Nat × Option PErr :=
  match parseInt64 hexDigit 16 hdr with
  | none => ([], some .badNum)
  | some L =>
    if L = 0 then ([], none)
    else if L < 4 then ([], some .panicked)
    else
      let want := (L - 4).toNat
      if rest.length = 0 then (List.replicate want 0, some .eof)
      else (rest.take want ++ List.replicate (want - rest.length) 0, none)

/-- `readPacketLine` from git.go: `Read` into a 4-byte buffer (EOF only
when the stream is empty; a short read leaves trailing NUL bytes), then
the header branch. -/
def readPacketLine : List Nat → List Nat × Option PErr
  | [] => ([], some .eof)
  | [a] => plHdr [a, 0, 0, 0] []
  | [a, b] => plHdr [a, b, 0, 0] []
  | [a, b, c] => plHdr [a, b, c, 0] []
  | a :: b :: c :: d :: rest => plHdr [a, b, c, d] rest

/-- C10 counterexample: on the stream consisting of exactly the
zero-payload frame "0004", the empty `Read` at end-of-stream returns
`io.EOF`, so `readPacketLine` returns an error, refuting the claim that
a zero-payload frame always yields an empty payload with no error. -/
theorem c10_counterexample :
    readPacketLine (ascii "0004") = ([], some .eof) := by decide

/-- C10 (amended): the flush packet "0000" always returns an empty
payload with no error, and a zero-payload frame "0004" does so whenever
at least one byte follows it (when "0004" ends the stream the empty read
reports EOF instead); hence only when data follows can a caller not
distinguish a flush packet from an empty packet-line by the returned
value. -/
theorem c10_flush_and_empty_frame :
    (∀ rest : List Nat, readPacketLine (ascii "0000" ++ rest) = ([], none))
    ∧ (∀ rest : List Nat, rest ≠ [] →
        readPacketLine (ascii "0004" ++ rest) = ([], none)) := by
  constructor
  · intro rest
    show plHdr [48, 48, 48, 48] rest = ([], none)
    rfl
  · intro rest hrest
    match rest, hrest with
    | x :: xs, _ =>
      show plHdr [48, 48, 48, 52] (x :: xs) = ([], none)
      have h : parseInt64 hexDigit 16 [48, 48, 48, 52] = some 4 := by decide
      simp [plHdr, h]

/-- Witness for the amended C10: flush packet alone, and the
zero-payload frame followed by one byte. -/
theorem c10_flush_and_empty_frame_witness :
    readPacketLine (ascii "0000") = ([], none)
    ∧ readPacketLine (ascii "0004" ++ [65]) = ([], none) :=
  ⟨c10_flush_and_empty_frame.1 [], c10_flush_and_empty_frame.2 [65] (by decide)⟩

/-- The continuation loop of `readObjectTypeAndLen` from git.go:
`num += int(b) << (4 + 7*i)` — note the whole byte `b`, including its
continuation bit, is shifted in (Go `int` arithmetic wraps at 2^64, and
a shift of 64 or more yields 0, both captured by the modulus). -/
def lenCont : List Nat → Nat → Nat → Option (Nat × List Nat)
  | [], _, _ => none
  | b :: rest, num, i =>
    let num2 := (num + (b <<< (4 + 7 * i))) % 2 ^ 64
    if b &&& 128 = 0 then some (num2, rest) else lenCont rest num2 (i + 1)

/-- `readObjectTypeAndLen` from git.go: type from bits 4..6 of the first
byte, low 4 bits seed the size, continuation bytes while the msb is
set. -/
def readObjectTypeAndLen (data : List Nat) : Option (Nat × Nat × List Nat) :=
  match data with
  | [] => none
  | b :: rest =>
    let objType := (b &&& 112) >>> 4
    let num := b &&& 15
    if b &&& 128 = 0 then some (objType, num, rest)
    else
      match lenCont rest num 0 with
      | none => none
      | some (n, r) => some (objType, n, r)

/-- Modelled from the spec: the same header decoding but adding only the
low 7 bits of each continuation byte, as the pack format prescribes. -/
def specLenCont : List Nat → Nat → Nat → Option (Nat × List Nat)
  | [], _, _ => none
  | b :: rest, num, i =>
    let num2 := num + ((b &&& 127) <<< (4 + 7 * i))
    if b &&& 128 = 0 then some (num2, rest) else specLenCont rest num2 (i + 1)

/-- Modelled from the spec: type and little-endian size with 7 bits per
continuation byte. -/
def specTypeAndLen (data : List Nat) : Option (Nat × Nat × List Nat) :=
  match data with
  | [] => none
  | b :: rest =>
    let objType := (b &&& 112) >>> 4
    let num := b &&& 15
    if b &&& 128 = 0 then some (objType, num, rest)
    else
      match specLenCont rest num 0 with
      | none => none
      | some (n, r) => some (objType, n, r)

/-- C4: on the three-byte header 0x90 0x81 0x01 the code returns size
4112, because the second byte 0x81 is added whole — its continuation bit
contributes 128 << 4 = 2048 — whereas the claimed 7-bits-per-byte
accumulation gives 2064.  The type bits are decoded as the claim
states. -/
theorem c4_continuation_byte_not_masked :
    readObjectTypeAndLen [144, 129, 1] = some (1, 4112, [])
    ∧ specTypeAndLen [144, 129, 1] = some (1, 2064, []) := by
  constructor <;> decide

/-- An object held in the in-memory `shaToObj` map during clone: packfile
type tag and payload bytes. -/
structure PackObj where
  ty : Nat
  buf : List Nat
deriving DecidableEq

/-- `binary.ReadUvarint`: accumulate 7 bits per byte, little-endian,
continuation while the msb is set; EOF when the stream ends first;
overflow after 10 bytes or when the 10th byte exceeds 1 (uint64
arithmetic wraps at 2^64). -/
def uvarintGo : List Nat → Nat → Nat → Nat → Except PErr (Nat × List Nat)
  | [], _, _, _ => .error .eof
  | b :: rest, x, s, i =>
    if i = 10 then .error .overflow
    else if b < 128 then
      if i = 9 ∧ b > 1 then .error .overflow
      else .ok ((x + (b <<< s)) % 2 ^ 64, rest)
    else uvarintGo rest ((x + ((b &&& 127) <<< s)) % 2 ^ 64) (s + 7) (i + 1)

def readUvarint (s : List Nat) : Except PErr (Nat × List Nat) :=
  uvarintGo s 0 0 0

/-- One conditional byte-read loop of `readDeltified`'s copy branch:
for each index in `idxs`, when bit `i` of the instruction byte is set
read one byte (EOF if the stream is empty) and add it shifted to
position `(i - shift0) * 8`; when the bit is clear read nothing. -/
def readBitsAcc (b shift0 : Nat) : List Nat → Nat → List Nat → Except PErr (Nat × List Nat)
  | [], acc, s => .ok (acc, s)
  | i :: idxs, acc, s =>
    if (b >>> i) &&& 1 = 1 then
      match s with
      | [] => .error .eof
      | c :: rest => readBitsAcc b shift0 idxs (acc + (c <<< ((i - shift0) * 8))) rest
    else readBitsAcc b shift0 idxs acc s

/-- The copy-instruction argument assembly of `readDeltified`: up to 4
offset bytes selected by bits 0..3 (shifted to positions 0, 8, 16, 24)
then up to 3 size bytes selected by bits 4..6 (positions 0, 8, 16).
There is no special case for a size of zero. -/
def copyArgs (b : Nat) (s : List Nat) : Except PErr (Nat × Nat × List Nat) :=
  match readBitsAcc b 0 [0, 1, 2, 3] 0 s with
  | .error e => .error e
  | .ok (offset, s1) =>
    match readBitsAcc b 4 [4, 5, 6] 0 s1 with
    | .error e => .error e
    | .ok (size, s2) => .ok (offset, size, s2)

theorem readBitsAcc_length_le (b shift0 : Nat) :
    ∀ (idxs : List Nat) (acc : Nat) (s : List Nat) (v : Nat) (s2 : List Nat),
      readBitsAcc b shift0 idxs acc s = .ok (v, s2) → s2.length ≤ s.length := by
  intro idxs
  induction idxs with
  | nil =>
    intro acc s v s2 h
    simp only [readBitsAcc, Except.ok.injEq, Prod.mk.injEq] at h
    obtain ⟨-, rfl⟩ := h
    exact le_refl _
  | cons i idxs ih =>
    intro acc s v s2 h
    simp only [readBitsAcc] at h
    split at h
    · match s, h with
      | c :: rest, h =>
        have := ih _ rest v s2 h
        simp only [List.length_cons]
        omega
    · exact ih _ s v s2 h

theorem copyArgs_length_le (b : Nat) (s : List Nat) (o sz : Nat) (s2 : List Nat)
    (h : copyArgs b s = .ok (o, sz, s2)) : s2.length ≤ s.length := by
  unfold copyArgs at h
  split at h
  · cases h
  · rename_i offset s1 h1
    split at h
    · cases h
    · rename_i size s3 h2
      simp only [Except.ok.injEq, Prod.mk.injEq] at h
      obtain ⟨-, -, rfl⟩ := h
      exact le_trans (readBitsAcc_length_le b 4 _ _ s1 size s3 h2)
        (readBitsAcc_length_le b 0 _ _ s offset s1 h1)

/-- The instruction loop of `readDeltified`, run until the delta stream
is exhausted.  An insert instruction (msb clear) copies the next
low-7-bit count of literal bytes (EOF if fewer remain); a copy
instruction (msb set) assembles offset and size and appends
`base[offset : offset+size]`, panicking — as Go slicing does — when the
range exceeds the base.  The extra `Nat` bound, always instantiated with
the stream length, only makes the recursion structural: every iteration
consumes at least the instruction byte. -/
def deltaLoopGo (base : List Nat) :
    (n : Nat) → (s : List Nat) → s.length ≤ n → List Nat → Except PErr (List Nat)
  | _, [], _, acc => .ok acc
  | 0, _ :: _, h, _ => absurd h (by simp)
  | n + 1, b :: rest, h, acc =>
    if b &&& 128 = 0 then
      let k := b &&& 127
      if rest.length < k then .error .eof
      else deltaLoopGo base n (rest.drop k)
        (by simp only [List.length_drop]; simp only [List.length_cons] at h; omega)
        (acc ++ rest.take k)
    else
      match hc : copyArgs b rest with
      | .error e => .error e
      | .ok (offset, size, rest2) =>
        if offset + size ≤ base.length then
          deltaLoopGo base n rest2
            (by
              have := copyArgs_length_le b rest offset size rest2 hc
              simp only [List.length_cons] at h
              omega)
            (acc ++ ((base.drop offset).take size))
        else .error .panicked

def deltaLoop (base s acc : List Nat) : Except PErr (List Nat) :=
  deltaLoopGo base s.length s (le_refl _) acc

/-- `readDeltified` from git.go: source-size varint (value unused),
destination-size varint, instruction loop, and the final check that the
output length equals the destination size. -/
def readDeltified (delta : List Nat) (baseObj : PackObj) : Except PErr (List Nat) :=
  match readUvarint delta with
  | .error e => .error e
  | .ok (_, r1) =>
    match readUvarint r1 with
    | .error e => .error e
    | .ok (dst, r2) =>
      match deltaLoop baseObj.buf r2 [] with
      | .error e => .error e
      | .ok result => if result.length = dst then .ok result else .error .invalidDeltified

/-- C1: a copy instruction whose decoded size is 0 copies 0 bytes, not
0x10000.  First conjunct: the delta stream src=3, dst=0, single copy
instruction 0x80 (no offset, no size bytes) over base "abc" yields an
empty output — had the code treated size 0 as 0x10000 the copy would
have appended 65536 bytes.  Second conjunct: the delta stream src=3,
dst=0x10000 with the same single copy instruction — valid per the spec,
which would copy 0x10000 bytes — is rejected with the output-length
error because the code copied nothing. -/
theorem c1_zero_size_copy_copies_nothing :
    readDeltified [3, 0, 128] ⟨3, [97, 98, 99]⟩ = .ok []
    ∧ readDeltified [3, 128, 128, 4, 128] ⟨3, [97, 98, 99]⟩ = .error .invalidDeltified := by
  constructor <;> decide

/-- Big-endian uint32 of the first four list elements (binary.BigEndian
.Uint32). -/
def beU32 (l : List Nat) : Nat :=
  match l with
  | b0 :: b1 :: b2 :: b3 :: _ => ((b0 * 256 + b1) * 256 + b2) * 256 + b3
  | _ => 0

/-- The per-object loop of `fetchObjects`: run the supplied `readObject`
step `n` times, threading reader position and the sha-to-object map; on
the first error stop and return the map accumulated so far together
with the error, as the Go code leaves the global map partially
populated. -/
def decodeLoop (readObj : List Nat → List (List Nat × PackObj) →
    Except PErr (List Nat × List (List Nat × PackObj))) :
    Nat → List Nat → List (List Nat × PackObj) →
    List (List Nat × PackObj) × Option PErr
  | 0, _, st => (st, none)
  | n + 1, rem, st =>
    match readObj rem st with
    | .error e => (st, some e)
    | .ok (rem2, st2) => decodeLoop readObj n rem2 st2

/-- `fetchObjects` from git.go, parameterised over the SHA-1 function
and the per-object decoding step: read the 12-byte header fields (Go
panics when the buffer is shorter), compare the stored trailing 20
bytes against the SHA-1 of everything before them, fail with the
checksum-mismatch error before decoding any object, and otherwise
decode `numObjects` objects starting after the header. -/
def fetchObjects (sha1 : List Nat → List Nat)
    (readObj : List Nat → List (List Nat × PackObj) →
      Except PErr (List Nat × List (List Nat × PackObj)))
    (packfileBuf : List Nat) (st : List (List Nat × PackObj)) :
    List (List Nat × PackObj) × Option PErr :=
  if packfileBuf.length < 12 then (st, some .panicked)
  else
    let numObjects := beU32 (packfileBuf.drop 8)
    if packfileBuf.length < 20 then (st, some .panicked)
    else
      let storedChecksum := packfileBuf.drop (packfileBuf.length - 20)
      let actualChecksum := sha1 (packfileBuf.take (packfileBuf.length - 20))
      if storedChecksum ≠ actualChecksum then (st, some .checksumMismatch)
      else decodeLoop readObj numObjects (packfileBuf.drop 12) st

/-- C3: for every packfile buffer (large enough to carry the 12-byte
header and 20-byte trailer) whose final 20 bytes differ from the hash of
all preceding bytes, `fetchObjects` returns the checksum-mismatch error
without invoking the object decoder even once, and the sha-to-object map
comes back exactly as it went in — for every decoding step function and
every starting map. -/
theorem c3_checksum_checked_before_decoding
    (sha1 : List Nat → List Nat) (packfileBuf : List Nat)
    (hlen : 32 ≤ packfileBuf.length)
    (hbad : packfileBuf.drop (packfileBuf.length - 20)
      ≠ sha1 (packfileBuf.take (packfileBuf.length - 20))) :
    ∀ readObj st, fetchObjects sha1 readObj packfileBuf st = (st, some .checksumMismatch) := by
  intro readObj st
  unfold fetchObjects
  rw [if_neg (by omega), if_neg (by omega), if_pos hbad]

/-- Witness for C3: a 32-byte all-zero buffer against a hash function
returning twenty 1-bytes, with a decoding step that would populate the
map if it ever ran. -/
theorem c3_checksum_checked_before_decoding_witness :
    fetchObjects (fun _ => List.replicate 20 1)
      (fun rem st => .ok (rem, ([0], PackObj.mk 3 [97]) :: st))
      (List.replicate 32 0) [] = ([], some .checksumMismatch) :=
  c3_checksum_checked_before_decoding (fun _ => List.replicate 20 1)
    (List.replicate 32 0) (by decide) (by decide)
    (fun rem st => .ok (rem, ([0], PackObj.mk 3 [97]) :: st)) []

/-- A tree entry as built by `WriteTree`: mode bytes, name bytes, and
the child hash. -/
structure TEnt where
  perm : List Nat
  name : List Nat
  hash : List Nat
deriving DecidableEq

/-- `TreeEntry.Serialize`: `<mode> <name>\0<hash>`. -/
def tentSerialize (e : TEnt) : List Nat := e.perm ++ [32] ++ e.name ++ [0] ++ e.hash

/-- The entry stream of `GitTree.Serialize`: entries concatenated with
no separator. -/
def entriesPayload (l : List TEnt) : List Nat := (l.map tentSerialize).flatten

/-- The envelope built by `GitTree.Serialize`: `tree <size>\0<entries>`. -/
def treeEnvelope (payload : List Nat) : List Nat :=
  ascii "tree " ++ decRepr payload.length ++ [0] ++ payload

/-- The envelope built by `GitBlob.Serialize`: `blob <size>\0<content>`. -/
def blobEnvelope (c : List Nat) : List Nat :=
  ascii "blob " ++ decRepr c.length ++ [0] ++ c

/-- The `dirPerm` constant of git.go. -/
def dirPermBytes : List Nat := ascii "40000"

/-- Three octal digits of a permission value, as `fmt %03o` renders
POSIX permission bits. -/
def octal3 (p : Nat) : List Nat := [48 + p / 64 % 8, 48 + p / 8 % 8, 48 + p % 8]

/-- The `"100%03o"` mode string `WriteTree` derives for a regular
file. -/
def fileModeBytes (p : Nat) : List Nat := ascii "100" ++ octal3 p

/-- A directory tree as `WriteTree` observes it.  A directory carries
the result of `os.ReadDir`: `none` models a listing error (which the
code merely prints), `some children` the listed children.  `os.ReadDir`
documents that entries come back sorted by filename, which the model
realises with an explicit byte-wise insertion sort; the sort is applied
to the finished entry list rather than to the names first, which yields
the same sequence because entry construction is per-element and keeps
the name. -/
inductive FSNode where
  | file (perm : Nat) (content : List Nat)
  | dir (listing : Option (List (List Nat × FSNode)))

/-- Byte-wise lexicographic comparison of names, as Go string comparison
orders `os.ReadDir` results. -/
def nameLeB : List Nat → List Nat → Bool
  | [], _ => true
  | _ :: _, [] => false
  | a :: x, b :: y => if a < b then true else if b < a then false else nameLeB x y

theorem nameLeB_total : ∀ x y, nameLeB x y = true ∨ nameLeB y x = true := by
  intro x
  induction x with
  | nil => intro y; left; rfl
  | cons a xs ih =>
    intro y
    cases y with
    | nil => right; rfl
    | cons b ys =>
      by_cases hab : a < b
      · left; simp [nameLeB, hab]
      · by_cases hba : b < a
        · right; simp [nameLeB, hba]
        · rcases ih ys with h | h
          · left; simp [nameLeB, hab, hba, h]
          · right; simp [nameLeB, hab, hba, h]

theorem nameLeB_trans :
    ∀ x y z, nameLeB x y = true → nameLeB y z = true → nameLeB x z = true := by
  intro x
  induction x with
  | nil => intros; rfl
  | cons a xs ih =>
    intro y z hxy hyz
    cases y with
    | nil => exact absurd hxy (by simp [nameLeB])
    | cons b ys =>
      cases z with
      | nil => exact absurd hyz (by simp [nameLeB])
      | cons c zs =>
        simp only [nameLeB] at hxy hyz ⊢
        rcases Nat.lt_trichotomy a b with hab | rfl | hab
        · rcases Nat.lt_trichotomy b c with hbc | rfl | hbc
          · rw [if_pos (lt_trans hab hbc)]
          · rw [if_pos hab]
          · rw [if_neg (by omega), if_pos hbc] at hyz
            exact absurd hyz Bool.false_ne_true
        · rw [if_neg (lt_irrefl a), if_neg (lt_irrefl a)] at hxy
          rcases Nat.lt_trichotomy a c with hac | rfl | hac
          · rw [if_pos hac]
          · rw [if_neg (lt_irrefl a), if_neg (lt_irrefl a)] at hyz ⊢
            exact ih ys zs hxy hyz
          · rw [if_neg (by omega), if_pos hac] at hyz
            exact absurd hyz Bool.false_ne_true
        · rw [if_neg (by omega), if_pos hab] at hxy
          exact absurd hxy Bool.false_ne_true

/-- One insertion step of the byte-wise sort. -/
def insertEnt (e : TEnt) : List TEnt → List TEnt
  | [] => [e]
  | f :: fs => if nameLeB e.name f.name then e :: f :: fs else f :: insertEnt e fs

/-- Sort the entry list by name, byte-wise ascending — the order
`os.ReadDir` hands `WriteTree` its children in. -/
def sortEnts : List TEnt → List TEnt
  | [] => []
  | e :: es => insertEnt e (sortEnts es)

theorem mem_insertEnt (x e : TEnt) : ∀ l, x ∈ insertEnt e l ↔ x = e ∨ x ∈ l := by
  intro l
  induction l with
  | nil => simp [insertEnt]
  | cons f fs ih =>
    simp only [insertEnt]
    split
    · simp [List.mem_cons]
    · simp only [List.mem_cons, ih]
      tauto

theorem pairwise_insertEnt (e : TEnt) (l : List TEnt)
    (h : l.Pairwise (fun a b => nameLeB a.name b.name = true)) :
    (insertEnt e l).Pairwise (fun a b => nameLeB a.name b.name = true) := by
  induction l with
  | nil => simp [insertEnt]
  | cons f fs ih =>
    rcases List.pairwise_cons.mp h with ⟨hf, hfs⟩
    simp only [insertEnt]
    split
    · rename_i hef
      refine List.pairwise_cons.mpr ⟨?_, h⟩
      intro x hx
      rcases List.mem_cons.mp hx with rfl | hx2
      · exact hef
      · exact nameLeB_trans e.name f.name x.name hef (hf x hx2)
    · rename_i hef
      have hfe : nameLeB f.name e.name = true := by
        rcases nameLeB_total e.name f.name with h1 | h1
        · exact absurd h1 hef
        · exact h1
      refine List.pairwise_cons.mpr ⟨?_, ih hfs⟩
      intro x hx
      rcases (mem_insertEnt x e fs).mp hx with rfl | hx2
      · exact hfe
      · exact hf x hx2

theorem pairwise_sortEnts :
    ∀ l, (sortEnts l).Pairwise (fun a b => nameLeB a.name b.name = true)
  | [] => List.Pairwise.nil
  | e :: es => pairwise_insertEnt e (sortEnts es) (pairwise_sortEnts es)

/-- The `.git` directory name skipped by `WriteTree`. -/
def gitDirName : List Nat := ascii ".git"

/-- The tree entry `WriteTree` records for one child: file mode derived
from the permission bits for a regular file, the `dirPerm` constant for
a subdirectory, with the child's hash. -/
def entryFor (n : List Nat) (node : FSNode) (h : List Nat) : TEnt :=
  match node with
  | .file perm _ => ⟨fileModeBytes perm, n, h⟩
  | .dir _ => ⟨dirPermBytes, n, h⟩

mutual
/-- The hash `WriteTree` (for directories) or `HashObject` (for files)
produces for a node, with the SHA-1 function as a parameter.  A failed
directory listing is printed and then treated as an empty list of
children, so the empty tree is hashed. -/
def nodeHash (sha1 : List Nat → List Nat) : FSNode → List Nat
  | .file _ c => sha1 (blobEnvelope c)
  | .dir none => sha1 (treeEnvelope (entriesPayload (sortEnts [])))
  | .dir (some es) => sha1 (treeEnvelope (entriesPayload (sortEnts (rawEntries sha1 es))))
/-- The entry list `WriteTree` accumulates over the children of one
directory, skipping `.git`. -/
def rawEntries (sha1 : List Nat → List Nat) : List (List Nat × FSNode) → List TEnt
  | [] => []
  | (n, node) :: rest =>
    if n = gitDirName then rawEntries sha1 rest
    else entryFor n node (nodeHash sha1 node) :: rawEntries sha1 rest
end

/-- The entry sequence of the tree payload `WriteTree` produces for a
directory listing. -/
def writeTreeEntries (sha1 : List Nat → List Nat) (es : List (List Nat × FSNode)) : List TEnt :=
  sortEnts (rawEntries sha1 es)

theorem nodeHash_dir (sha1 : List Nat → List Nat) (es : List (List Nat × FSNode)) :
    nodeHash sha1 (.dir (some es)) =
      sha1 (treeEnvelope (entriesPayload (writeTreeEntries sha1 es))) := by
  simp [nodeHash, writeTreeEntries]

/-- C7: for every directory listing, the tree payload produced by
write-tree lists its entries sorted by entry name in byte-wise ascending
order (for any hash function). -/
theorem c7_write_tree_entries_sorted (sha1 : List Nat → List Nat)
    (es : List (List Nat × FSNode)) :
    (writeTreeEntries sha1 es).Pairwise (fun a b => nameLeB a.name b.name = true) :=
  pairwise_sortEnts _

/-- `writeFile` from git.go: `_ = os.WriteFile(...)` — the write error is
discarded, so a failed write (modelled by the `fails` predicate over the
object hash) leaves the store unchanged and the caller never learns. -/
def putFile (fails : List Nat → Bool) (st : List (List Nat × List Nat))
    (path data : List Nat) : List (List Nat × List Nat) :=
  if fails path then st else (path, data) :: st

mutual
/-- `WriteTree` (directories) and the embedded `HashObject` (files) with
the object store threaded through: every visited node serialises its
envelope, hashes it, attempts the store write with the error discarded,
and returns the hash.  A failed `os.ReadDir` (`dir none`) is printed and
then treated as zero entries, so an empty tree object is produced and a
hash is still returned. -/
def writeTreeSt (sha1 : List Nat → List Nat) (fails : List Nat → Bool) :
    FSNode → List (List Nat × List Nat) → List Nat × List (List Nat × List Nat)
  | .file _ c, st =>
    let env := blobEnvelope c
    let h := sha1 env
    (h, putFile fails st h env)
  | .dir none, st =>
    let env := treeEnvelope (entriesPayload (sortEnts []))
    let h := sha1 env
    (h, putFile fails st h env)
  | .dir (some es), st =>
    let r := childWrites sha1 fails es st
    let env := treeEnvelope (entriesPayload (sortEnts r.1))
    let h := sha1 env
    (h, putFile fails r.2 h env)
/-- The child loop of `WriteTree`: skip `.git`, recurse into every other
child, collecting its tree entry and threading the store. -/
def childWrites (sha1 : List Nat → List Nat) (fails : List Nat → Bool) :
    List (List Nat × FSNode) → List (List Nat × List Nat) →
    List TEnt × List (List Nat × List Nat)
  | [], st => ([], st)
  | (n, node) :: rest, st =>
    if n = gitDirName then childWrites sha1 fails rest st
    else
      let hs := writeTreeSt sha1 fails node st
      let rs := childWrites sha1 fails rest hs.2
      (entryFor n node hs.1 :: rs.1, rs.2)
end

/-- C9 counterexample: a directory whose listing fails, with every
object-store write failing as well (hash of the id function for
concreteness): write-tree still returns the root tree hash — the bytes
of the empty tree envelope "tree 0\0" — and stores nothing, instead of
propagating any error. -/
theorem c9_counterexample :
    writeTreeSt (fun l => l) (fun _ => true) (.dir none) []
      = ([116, 114, 101, 101, 32, 48, 0], []) := by
  simp only [writeTreeSt, putFile]
  decide

/-- C9 (amended): write-tree does not abort on I/O failure.  For every
hash function and every starting store, a directory whose listing fails
behaves exactly like an empty directory, and even with every
object-store write failing a root tree hash is returned while the store
is left untouched. -/
theorem c9_io_errors_swallowed :
    (∀ (sha1 : List Nat → List Nat) (fails : List Nat → Bool) st,
        writeTreeSt sha1 fails (.dir none) st = writeTreeSt sha1 fails (.dir (some [])) st)
    ∧ (∀ (sha1 : List Nat → List Nat) st,
        writeTreeSt sha1 (fun _ => true) (.dir none) st
          = (sha1 (treeEnvelope []), st)) := by
  constructor
  · intro sha1 fails st
    simp [writeTreeSt, childWrites]
  · intro sha1 st
    simp [writeTreeSt, putFile, sortEnts, entriesPayload]
